import Mathlib

/-!
# slackcat: `main.go`

A shallow embedding of `main.go` (the command-line front end of slackcat) and
theorems about the stdin reader `readIn`, the temp-file writer `writeTemp`,
the diagnostics `output` / `failOnError` / `exitErr` and the `app.Action`
closure of `main`.

Modelling conventions.

* A Go `string` / `[]byte` is a `Str`, a list whose elements stand for the
  bytes of the string (written as characters).
* Standard input is the finite sequence of bytes `os.Stdin` delivers, followed
  by how its `Read` ends: end of input, or a read error.
* Effects are recorded in program order, one list per goroutine.
* Functions of the repository that are not in `main.go` (`getConfigPath`,
  `readConfig`, `parseChannelOpt`, `newSlackCat`, `postFile`, `configureOA`,
  the streaming goroutines) and library functions (`filepath.Base`, the colour
  functions, `ioutil.TempFile`) appear as calls in the trace or as parameters.
-/

namespace Slackcat

/-- A Go string: a sequence of bytes. -/
abbrev Str := List Char

/-! ## `bufio.Scanner` with `bufio.ScanLines` -/

/-- The constant `bufio.MaxScanTokenSize`: the size a `Scanner` made by
`bufio.NewScanner` lets its buffer grow to. -/
def MaxScanTokenSize : Nat := 64 * 1024

/-- The call `bytes.IndexByte(data, c)`: index of the first `c`, if any. -/
def IndexByte : Str → Char → Option Nat
  | [], _ => none
  | b :: rest, c =>
    if b = c then some 0
    else match IndexByte rest c with
      | some i => some (i + 1)
      | none => none

/-- The helper `dropCR` of package `bufio`: drops one terminal `\r`. -/
def dropCR (data : Str) : Str :=
  if data.getLast? = some '\r' then data.dropLast else data

/-- The split function `bufio.ScanLines`: returns `(advance, token)`; the
token is `none` when more data is requested. -/
def ScanLines (data : Str) (atEOF : Bool) : Nat × Option Str :=
  if atEOF && data.isEmpty then (0, none)
  else match IndexByte data '\n' with
    | some i => (i + 1, some (dropCR (data.take i)))
    | none => if atEOF then (data.length, some (dropCR data)) else (0, none)

/-- How the reads from `os.Stdin` end once all of its bytes are delivered. -/
inductive ReadEnd where
  | eof
  | fail (msg : Str)
deriving DecidableEq

/-- Standard input: the bytes it delivers and how reading them ends. -/
structure Stdin where
  data : Str
  ending : ReadEnd
deriving DecidableEq

/-- What `scanner.Err()` would report after `Scan` returned false. -/
inductive ScanErr where
  | none
  | tooLong
  | read (msg : Str)
deriving DecidableEq

/-- Result of one call of `scanner.Scan()`. -/
inductive ScanResult where
  | token (text : Str) (rest : Str)
  | stop (err : ScanErr)
deriving DecidableEq

/-- One call of `scanner.Scan()` on the input not consumed so far (what the
buffer holds and what is still to be read), for the split function
`ScanLines`.

The scanner's buffer holds at most `maxTokenSize` bytes of unconsumed input,
so the split function sees the first `maxTokenSize` bytes of `rest`. When the
buffer is not full the scanner reads on until the reader reports its end, and
the split function is then called with `atEOF` set (for end of input and for a
read error alike). When the buffer is full and holds no token, `Scan` fails
with `ErrTooLong`. -/
def Scan (maxTokenSize : Nat) (rest : Str) (ending : ReadEnd) : ScanResult :=
  let window := rest.take maxTokenSize
  let atEOF := decide (rest.length < maxTokenSize)
  match ScanLines window atEOF with
  | (advance, some tok) => .token tok (rest.drop advance)
  | (_, none) =>
    if atEOF then
      match ending with
      | .eof => .stop .none
      | .fail msg => .stop (.read msg)
    else .stop .tooLong

/-! ## Effects -/

/-- Observable actions of the program. -/
inductive Effect where
  /-- Bytes written to standard output. -/
  | print (s : Str)
  /-- The statement `lines <- line`. -/
  | send (line : Str)
  /-- The statement `close(lines)`. -/
  | close
  | configureOA
  | readConfig (path : Str)
  /-- Assignment to the global `noop`. -/
  | setNoop (b : Bool)
  | newSlackCat (token channel : Str)
  /-- The statement `go readIn(lines, tee)`. -/
  | goReadIn (tee : Bool)
  /-- A successful `ioutil.TempFile`, with the name of the file. -/
  | tempFile (name : Str)
  /-- The call `w.Flush()`: the buffered content reaches the file. -/
  | flush (name : Str) (content : Str)
  | postFile (filePath fileName fileType fileComment : Str)
  | goAddToStreamQ
  | goProcessStreamQ
  | goTrap
  /-- The statement `select {}`. -/
  | block
  /-- The call `os.Exit(code)`. -/
  | exit (code : Nat)
deriving DecidableEq

/-! ## `readIn` -/

/-- The loop `for scanner.Scan() { ... }` of `readIn`, followed by
`close(lines)`. Each round consumes at least one byte, so `fuel` rounds with
`fuel` above the length of the input are never used up; with no fuel left the
trace ends without `close`. -/
def readInLoop (maxTokenSize : Nat) (tee : Bool) (ending : ReadEnd) :
    Nat → Str → List Effect
  | 0, _ => []
  | fuel + 1, rest =>
    match Scan maxTokenSize rest ending with
    | .token text rest' =>
      Effect.send text ::
        ((if tee then [Effect.print (text ++ ['\n'])] else []) ++
          readInLoop maxTokenSize tee ending fuel rest')
    | .stop _ => [Effect.close]

/-- The function `readIn(lines, tee)` with a scanner of the given buffer
limit: the effects of the goroutine, its receiver taking every line. -/
def readInWith (maxTokenSize : Nat) (tee : Bool) (stdin : Stdin) : List Effect :=
  readInLoop maxTokenSize tee stdin.ending (stdin.data.length + 1) stdin.data

/-- The function `readIn(lines, tee)`. -/
def readIn (tee : Bool) (stdin : Stdin) : List Effect :=
  readInWith MaxScanTokenSize tee stdin

/-- The values sent on the channel, in order. -/
def sentLines : List Effect → List Str
  | [] => []
  | .send line :: t => line :: sentLines t
  | _ :: t => sentLines t

/-- The values printed to standard output, in order. -/
def printed : List Effect → List Str
  | [] => []
  | .print s :: t => s :: printed t
  | _ :: t => printed t

/-- What `for line := range lines` receives from a sender with the given
trace: the values sent before the channel is closed. -/
def received : List Effect → List Str
  | [] => []
  | .send line :: t => line :: received t
  | .close :: _ => []
  | _ :: t => received t

/-! ## Sequential code that may terminate the process -/

/-- A computation of the main goroutine: the effects it performs, and its
result, `none` when the process has exited or the goroutine blocks forever. -/
structure Proc (α : Type) where
  trace : List Effect
  result : Option α
deriving DecidableEq

/-- Sequencing: what follows a terminated computation does not run. -/
def Proc.bind {α β : Type} (m : Proc α) (f : α → Proc β) : Proc β :=
  match m.result with
  | none => ⟨m.trace, none⟩
  | some a => ⟨m.trace ++ (f a).trace, (f a).result⟩

instance : Monad Proc where
  pure a := ⟨[], some a⟩
  bind := Proc.bind

/-- Performs one effect and goes on. -/
def emit (e : Effect) : Proc Unit := ⟨[e], some ()⟩

/-- The call `os.Exit(code)`. -/
def osExit {α : Type} (code : Nat) : Proc α := ⟨[Effect.exit code], none⟩

/-- The statement `select {}`. -/
def selectForever {α : Type} : Proc α := ⟨[Effect.block], none⟩

/-! ## Diagnostics: `output`, `failOnError`, `exitErr` -/

/-- The colour functions `bold`, `red` and `cyan` (package `color`). -/
structure Palette where
  bold : Str → Str
  red : Str → Str
  cyan : Str → Str

/-- The colour functions when colours are disabled (`color.NoColor`, as when
standard output is not a terminal): they return their argument. -/
def Palette.plain : Palette := ⟨id, id, id⟩

/-- The program tag as printed: `bold(cyan("slackcat"))`. -/
def tag (p : Palette) : Str := p.bold (p.cyan "slackcat".toList)

/-- The text `fmt.Printf("%s %s\n", bold(cyan("slackcat")), s)` writes. -/
def outputText (p : Palette) (s : Str) : Str := tag p ++ [' '] ++ s ++ ['\n']

/-- The function `output(s)`. -/
def output (p : Palette) (s : Str) : Proc Unit := emit (.print (outputText p s))

/-- The function `exitErr(err)`; `err` is the text of `err.Error()`. -/
def exitErr {α : Type} (p : Palette) (err : Str) : Proc α := do
  output p (p.red err)
  osExit 1

/-- The function `failOnError(err, msg, appendErr)`; a non-nil `err` is
`some` of the text of `err.Error()`. -/
def failOnError (p : Palette) (err : Option Str) (msg : Str) (appendErr : Bool) :
    Proc Unit :=
  match err with
  | some e =>
    if appendErr then exitErr p (msg ++ ": ".toList ++ e)
    else exitErr p msg
  | none => pure ()

/-! ## `writeTemp` -/

/-- The call `fmt.Fprintln(w, line)` on the buffered writer's content. -/
def Fprintln (w : Str) (line : Str) : Str := w ++ line ++ ['\n']

/-- The loop `for line := range lines { fmt.Fprintln(w, line) }`. -/
def writeTempLoop (w : Str) : List Str → Str
  | [] => w
  | line :: rest => writeTempLoop (Fprintln w line) rest

/-- The function `writeTemp(lines)`: `tempFile` is the result `(tmp.Name(),
err)` of `ioutil.TempFile`, `lines` what the channel delivers. -/
def writeTemp (p : Palette) (tempFile : Str × Option Str) (lines : List Str) :
    Proc Str := do
  let (tmp, err) := tempFile
  failOnError p err "unable to create tmpfile".toList false
  emit (.tempFile tmp)
  let w := writeTempLoop [] lines
  emit (.flush tmp w)
  pure tmp

/-! ## The action of `main` -/

/-- The command line as `cli.Context` presents it: the flags and `c.Args()`. -/
structure Context where
  channel : Str
  comment : Str
  configure : Bool
  filename : Str
  filetype : Str
  noop : Bool
  stream : Bool
  tee : Bool
  args : List Str

/-- The configuration `readConfig` returns: the `Teams` map and the method
`parseChannelOpt`, which returns `(team, channel, err)`. -/
structure Config where
  Teams : List (Str × Str)
  parseChannelOpt : Str → Str × Str × Option Str

/-- The map read `config.Teams[team]`: the empty string for a missing key. -/
def Config.token (config : Config) (team : Str) : Str :=
  (config.Teams.lookup team).getD []

/-- What the action reads from its surroundings. -/
structure Env where
  palette : Palette
  /-- The result `(configPath, exists)` of `getConfigPath()`. -/
  getConfigPath : Str × Bool
  /-- The result of `readConfig(configPath)`. -/
  config : Config
  /-- The function `filepath.Base`. -/
  Base : Str → Str
  /-- The result `(tmp.Name(), err)` of `ioutil.TempFile`. -/
  tempFile : Str × Option Str
  stdin : Stdin

/-- The closure `app.Action`, on the main goroutine. The expression
`c.Args()[0]` is evaluated only when `len(c.Args()) > 0`. The deferred
`os.Remove(filePath)` of the single-shot branch leaves no effect: the closure
ends in `os.Exit(0)`, which runs no deferred call. -/
def action (c : Context) (env : Env) : Proc Unit := do
  let p := env.palette
  if c.configure then
    emit .configureOA
    osExit 0
  let (configPath, «exists») := env.getConfigPath
  if !«exists» then
    exitErr p ("missing config file at ".toList ++ configPath ++
      "\nuse --configure to create".toList)
  emit (.readConfig configPath)
  let config := env.config
  let (team, channel, err) := config.parseChannelOpt c.channel
  failOnError p err [] true
  emit (.setNoop c.noop)
  let fileName := c.filename
  let fileType := c.filetype
  let fileComment := c.comment
  let token := config.token team
  if token = [] then
    exitErr p ("no such team: ".toList ++ team)
  emit (.newSlackCat token channel)
  if c.args.length > 0 then
    if c.stream then
      output p "filepath provided, ignoring stream option".toList
    let filePath := c.args.headD []
    let fileName := if fileName = [] then env.Base filePath else fileName
    emit (.postFile filePath fileName fileType fileComment)
    osExit 0
  emit (.goReadIn c.tee)
  let lines := received (readIn c.tee env.stdin)
  if c.stream then
    output p "starting stream".toList
    emit .goAddToStreamQ
    emit .goProcessStreamQ
    emit .goTrap
    selectForever
  else
    let filePath ← writeTemp p env.tempFile lines
    emit (.postFile filePath fileName fileType fileComment)
    osExit 0

/-- Whether the main goroutine starts a receiver on the channel `lines`. -/
def hasReceiver : List Effect → Bool
  | [] => false
  | .tempFile _ :: _ => true
  | .goAddToStreamQ :: _ => true
  | _ :: t => hasReceiver t

/-- The trace of the `readIn` goroutine in a run with the given main trace:
`none` when it is not started; nothing when no receiver is started (the first
send never completes); else the trace of `readIn`. -/
def readerTrace (stdin : Stdin) : List Effect → Option (List Effect)
  | [] => none
  | .goReadIn tee :: t => if hasReceiver t then some (readIn tee stdin) else some []
  | _ :: t => readerTrace stdin t

/-- A run of the program: the effects of the main goroutine and of the
`readIn` goroutine. -/
structure Run where
  main : List Effect
  reader : Option (List Effect)
deriving DecidableEq

/-- The run of `app.Action` on a command line and surroundings. -/
def run (c : Context) (env : Env) : Run :=
  let m := (action c env).trace
  ⟨m, readerTrace env.stdin m⟩

/-! ## Lines of a text, as a specification -/

/-- The lines of a text: the pieces that end at each `\n`, and the piece after
the last `\n` when it is not empty. -/
def linesOf : Str → List Str
  | [] => []
  | b :: bs =>
    if b = '\n' then [] :: linesOf bs
    else match linesOf bs with
      | [] => [[b]]
      | l :: ls => (b :: l) :: ls

/-- The lines of a text without their end-of-line markers: each piece of
`linesOf` with one terminal `\r` removed. -/
def specLines (data : Str) : List Str := (linesOf data).map dropCR

/-- The lines a scanner with the given limit delivers: those before the first
line that has `maxTokenSize` bytes or more before its `\n` (a terminal `\r`
counts), each with one terminal `\r` removed. -/
def scannedLines (maxTokenSize : Nat) (data : Str) : List Str :=
  ((linesOf data).takeWhile fun l => decide (l.length < maxTokenSize)).map dropCR

/-- The effects of `readIn` for one line. -/
def lineEffects (tee : Bool) (line : Str) : List Effect :=
  Effect.send line :: (if tee then [Effect.print (line ++ ['\n'])] else [])

/-- A text written line by line: each line followed by one `\n`. -/
def unlines (lines : List Str) : Str := lines.flatMap fun l => l ++ ['\n']

/-- An input whose first line is as long as the scanner's buffer. -/
def overlongInput : Str := List.replicate MaxScanTokenSize 'a' ++ ['\n', 'b', '\n']

/-- Whether in a trace every send comes after a print that is not yet matched
by a send: the print of the i-th line precedes the send of the i-th line.
The arguments count the prints and the sends seen so far. -/
def printsFirst : Nat → Nat → List Effect → Bool
  | _, _, [] => true
  | p, s, .print _ :: t => printsFirst (p + 1) s t
  | p, s, .send _ :: t => decide (s < p) && printsFirst p (s + 1) t
  | p, s, _ :: t => printsFirst p s t

/-- Whether in a trace every print comes after a send that is not yet matched
by a print: the send of the i-th line precedes the print of the i-th line. -/
def sendsFirst : Nat → Nat → List Effect → Bool
  | _, _, [] => true
  | p, s, .send _ :: t => sendsFirst p (s + 1) t
  | p, s, .print _ :: t => decide (p < s) && sendsFirst (p + 1) s t
  | p, s, _ :: t => sendsFirst p s t

/-- Whether configuration resolves: the run is not a `--configure` run, the
config file exists, the channel option parses, and the team has a token. -/
def resolves (c : Context) (env : Env) : Bool :=
  !c.configure && env.getConfigPath.2 &&
    (env.config.parseChannelOpt c.channel).2.2.isNone &&
    !(env.config.token (env.config.parseChannelOpt c.channel).1 == [])

/-- The filename arguments of the `postFile` calls of a trace. -/
def postFileNames : List Effect → List Str
  | [] => []
  | .postFile _ fileName _ _ :: t => fileName :: postFileNames t
  | _ :: t => postFileNames t

/-- A trace without the assignments to the global `noop`. -/
def eraseNoop : List Effect → List Effect
  | [] => []
  | .setNoop _ :: t => eraseNoop t
  | e :: t => e :: eraseNoop t

/-- Whether a text is a single line: it ends in `\n` and has no other `\n`. -/
def singleLine (s : Str) : Bool :=
  s.getLast? == some '\n' && !s.dropLast.contains '\n'

/-- The content of the temp file that the stdin path (`readIn` feeding
`writeTemp`) produces from standard input. -/
def tempContent (tee : Bool) (stdin : Stdin) : Str :=
  writeTempLoop [] (received (readIn tee stdin))

/-- A configuration with one team. -/
def demoConfig : Config :=
  ⟨[("team".toList, "xoxp".toList)], fun opt => ("team".toList, opt, none)⟩

/-- Surroundings with colours off and the given standard input. -/
def demoEnv (stdin : Stdin) : Env :=
  ⟨Palette.plain, ("/home/u/.slackcat".toList, true), demoConfig,
    fun path => path, ("/tmp/slackcat-1".toList, none), stdin⟩

/-- The command line `slackcat -c general`. -/
def demoCtx : Context :=
  ⟨"general".toList, [], false, [], [], false, false, false, []⟩

/-- The surroundings of `demoEnv` without a config file. -/
def missingConfigEnv (stdin : Stdin) : Env :=
  ⟨Palette.plain, ("/home/u/.slackcat".toList, false), demoConfig,
    fun path => path, ("/tmp/slackcat-1".toList, none), stdin⟩

/-- The command line `slackcat --configure`. -/
def configureCtx : Context :=
  ⟨[], [], true, [], [], false, false, false, []⟩

/-- The command line `slackcat -c general -s notes.txt`. -/
def fileCtx : Context :=
  ⟨"general".toList, [], false, [], [], false, true, false, ["notes.txt".toList]⟩

/-! ## Lemmas -/

theorem IndexByte_eq_none {data : Str} {c : Char} (h : c ∉ data) :
    IndexByte data c = none := by
  induction data with
  | nil => rfl
  | cons b rest ih =>
    simp only [List.mem_cons, not_or] at h
    have hb : ¬ b = c := fun e => h.1 e.symm
    simp [IndexByte, hb, ih h.2]

theorem IndexByte_append {l : Str} {c : Char} (rest : Str) (h : c ∉ l) :
    IndexByte (l ++ c :: rest) c = some l.length := by
  induction l with
  | nil => simp [IndexByte]
  | cons b l ih =>
    simp only [List.mem_cons, not_or] at h
    have hb : ¬ b = c := fun e => h.1 e.symm
    simp [IndexByte, hb, ih h.2]

/-- Every text is a first line without `\n`, followed by nothing or by a `\n`
and the rest. -/
theorem exists_first_line (data : Str) :
    ∃ l : Str, '\n' ∉ l ∧ (data = l ∨ ∃ rest, data = l ++ '\n' :: rest) := by
  induction data with
  | nil => exact ⟨[], by simp, Or.inl rfl⟩
  | cons b bs ih =>
    by_cases hb : b = '\n'
    · exact ⟨[], by simp, Or.inr ⟨bs, by simp [hb]⟩⟩
    · obtain ⟨l, hl, h⟩ := ih
      refine ⟨b :: l, ?_, ?_⟩
      · simp only [List.mem_cons, not_or]
        exact ⟨fun e => hb e.symm, hl⟩
      · rcases h with h | ⟨rest, h⟩
        · exact Or.inl (by rw [h])
        · exact Or.inr ⟨rest, by rw [h]; rfl⟩

theorem linesOf_append_nl {l : Str} (rest : Str) (h : '\n' ∉ l) :
    linesOf (l ++ '\n' :: rest) = l :: linesOf rest := by
  induction l with
  | nil => simp [linesOf]
  | cons b l ih =>
    simp only [List.mem_cons, not_or] at h
    have hb : ¬ b = '\n' := fun e => h.1 e.symm
    simp [linesOf, hb, ih h.2]

theorem linesOf_no_nl {l : Str} (h : '\n' ∉ l) (hne : l ≠ []) : linesOf l = [l] := by
  induction l with
  | nil => exact absurd rfl hne
  | cons b l ih =>
    simp only [List.mem_cons, not_or] at h
    have hb : ¬ b = '\n' := fun e => h.1 e.symm
    cases l with
    | nil => simp [linesOf, hb]
    | cons b' l' =>
      have := ih h.2 (by simp)
      simp [linesOf, hb] at this ⊢
      rw [this]

theorem Scan_nil (m : Nat) (ending : ReadEnd) : ∃ err, Scan m [] ending = .stop err := by
  cases m with
  | zero => exact ⟨.tooLong, by simp [Scan, ScanLines, IndexByte]⟩
  | succ m =>
    cases ending with
    | eof => exact ⟨.none, by simp [Scan, ScanLines]⟩
    | fail msg => exact ⟨.read msg, by simp [Scan, ScanLines]⟩

theorem Scan_line_nl {m : Nat} {l : Str} (rest : Str) (ending : ReadEnd)
    (h : '\n' ∉ l) (hm : l.length < m) :
    Scan m (l ++ '\n' :: rest) ending = .token (dropCR l) rest := by
  have hw : List.take m (l ++ '\n' :: rest) = l ++ '\n' :: List.take (m - l.length - 1) rest := by
    rw [List.take_append_eq_append_take, List.take_of_length_le (by omega)]
    obtain ⟨k, hk⟩ : ∃ k, m - l.length = k + 1 := ⟨m - l.length - 1, by omega⟩
    rw [hk]
    simp
  simp only [Scan, ScanLines, hw, IndexByte_append _ h]
  simp

theorem Scan_line_last {m : Nat} {l : Str} (ending : ReadEnd)
    (h : '\n' ∉ l) (hne : l ≠ []) (hm : l.length < m) :
    Scan m l ending = .token (dropCR l) [] := by
  have hw : List.take m l = l := List.take_of_length_le (by omega)
  have he : l.isEmpty = false := by cases l <;> simp_all
  simp [Scan, ScanLines, hw, IndexByte_eq_none h, hm, he]

theorem Scan_too_long {m : Nat} {l : Str} (rest : Str) (ending : ReadEnd)
    (h : '\n' ∉ l) (hm : ¬ l.length < m) :
    Scan m (l ++ rest) ending = .stop .tooLong := by
  have hw : '\n' ∉ List.take m (l ++ rest) := by
    rw [List.take_append_eq_append_take]
    have : m - l.length = 0 := by omega
    rw [this]
    simp only [List.take_zero, List.append_nil]
    exact fun hmem => h (List.mem_of_mem_take hmem)
  have hlen : ¬ (l.length + rest.length < m) := by omega
  simp [Scan, ScanLines, IndexByte_eq_none hw, hlen]

theorem scannedLines_nil (m : Nat) : scannedLines m [] = [] := rfl

theorem scannedLines_append_nl {m : Nat} {l : Str} (rest : Str) (h : '\n' ∉ l) :
    scannedLines m (l ++ '\n' :: rest) =
      if l.length < m then dropCR l :: scannedLines m rest else [] := by
  unfold scannedLines
  rw [linesOf_append_nl rest h]
  by_cases hm : l.length < m <;> simp [List.takeWhile, hm]

theorem scannedLines_no_nl {m : Nat} {l : Str} (h : '\n' ∉ l) (hne : l ≠ []) :
    scannedLines m l = if l.length < m then [dropCR l] else [] := by
  unfold scannedLines
  rw [linesOf_no_nl h hne]
  by_cases hm : l.length < m <;> simp [List.takeWhile, hm]

/-- The trace of the loop of `readIn`: the effects of each scanned line, then
`close`; the fuel is never used up. -/
theorem readInLoop_eq (m : Nat) (tee : Bool) (ending : ReadEnd) :
    ∀ (fuel : Nat) (data : Str), data.length < fuel →
      readInLoop m tee ending fuel data =
        (scannedLines m data).flatMap (lineEffects tee) ++ [Effect.close] := by
  intro fuel
  induction fuel with
  | zero => intro data h; omega
  | succ fuel ih =>
    intro data hlen
    obtain ⟨l, hl, h | ⟨rest, h⟩⟩ := exists_first_line data
    · subst h
      by_cases hne : data = []
      · subst hne
        obtain ⟨err, he⟩ := Scan_nil m ending
        simp [readInLoop, he, scannedLines_nil]
      · by_cases hm : data.length < m
        · have hpos : 0 < data.length := List.length_pos.mpr hne
          have h0 : ([] : Str).length < fuel := by simp; omega
          simp [readInLoop, Scan_line_last ending hl hne hm, scannedLines_no_nl hl hne, hm,
            ih [] h0, scannedLines_nil, lineEffects]
        · have := Scan_too_long (m := m) [] ending hl hm
          rw [List.append_nil] at this
          simp [readInLoop, this, scannedLines_no_nl hl hne, hm]
    · subst h
      by_cases hm : l.length < m
      · have hr : rest.length < fuel := by simp at hlen; omega
        simp [readInLoop, Scan_line_nl rest ending hl hm, scannedLines_append_nl rest hl, hm,
          ih rest hr, lineEffects]
      · simp [readInLoop, Scan_too_long ('\n' :: rest) ending hl hm,
          scannedLines_append_nl rest hl, hm]

theorem readIn_eq (tee : Bool) (stdin : Stdin) :
    readIn tee stdin =
      (scannedLines MaxScanTokenSize stdin.data).flatMap (lineEffects tee) ++ [Effect.close] :=
  readInLoop_eq _ _ _ _ _ (Nat.lt_succ_self _)

theorem sentLines_lineEffects (tee : Bool) (ls : List Str) (t : List Effect) :
    sentLines (ls.flatMap (lineEffects tee) ++ t) = ls ++ sentLines t := by
  induction ls with
  | nil => simp
  | cons l ls ih =>
    rw [List.flatMap_cons, List.append_assoc]
    cases tee <;> simp [lineEffects, sentLines, ih]

theorem received_lineEffects (tee : Bool) (ls : List Str) (t : List Effect) :
    received (ls.flatMap (lineEffects tee) ++ t) = ls ++ received t := by
  induction ls with
  | nil => simp
  | cons l ls ih =>
    rw [List.flatMap_cons, List.append_assoc]
    cases tee <;> simp [lineEffects, received, ih]

theorem printed_lineEffects (tee : Bool) (ls : List Str) (t : List Effect) :
    printed (ls.flatMap (lineEffects tee) ++ t) =
      (if tee then ls.map (fun l => l ++ ['\n']) else []) ++ printed t := by
  induction ls with
  | nil => cases tee <;> simp
  | cons l ls ih =>
    rw [List.flatMap_cons, List.append_assoc]
    cases tee <;> simp [lineEffects, printed, ih]

theorem count_close_lineEffects (tee : Bool) (ls : List Str) :
    (ls.flatMap (lineEffects tee)).count Effect.close = 0 := by
  induction ls with
  | nil => simp
  | cons l ls ih => cases tee <;> simp_all [lineEffects, List.count_cons]

theorem dropCR_of_not_mem {l : Str} (h : '\r' ∉ l) : dropCR l = l := by
  unfold dropCR
  split
  · rename_i hl
    exact absurd (List.mem_of_getLast?_eq_some hl) h
  · rfl

theorem readIn_fail (tee : Bool) (data : Str) (msg : Str) :
    readIn tee ⟨data, .fail msg⟩ = readIn tee ⟨data, .eof⟩ := by
  rw [readIn_eq, readIn_eq]

theorem scannedLines_eq_specLines {m : Nat} {data : Str}
    (h : ∀ l ∈ linesOf data, l.length < m) : scannedLines m data = specLines data := by
  unfold scannedLines specLines
  congr 1
  rw [List.takeWhile_eq_self_iff]
  intro l hl
  simpa using h l hl

theorem sendsFirst_lineEffects (ls : List Str) (n : Nat) :
    sendsFirst n n (ls.flatMap (lineEffects true) ++ [Effect.close]) = true := by
  induction ls generalizing n with
  | nil => simp [sendsFirst]
  | cons l ls ih =>
    rw [List.flatMap_cons, List.append_assoc]
    simp [lineEffects, sendsFirst, ih]

theorem writeTempLoop_eq (lines : List Str) (w : Str) :
    writeTempLoop w lines = w ++ unlines lines := by
  induction lines generalizing w with
  | nil => simp [writeTempLoop, unlines]
  | cons l ls ih => simp [writeTempLoop, Fprintln, ih, unlines]

theorem unlines_cons (l : Str) (ls : List Str) :
    unlines (l :: ls) = l ++ '\n' :: unlines ls := by
  simp [unlines]

theorem received_readIn (tee : Bool) (stdin : Stdin) :
    received (readIn tee stdin) = scannedLines MaxScanTokenSize stdin.data := by
  rw [readIn_eq, received_lineEffects]
  simp [received]

theorem tempContent_eq (tee : Bool) (stdin : Stdin) :
    tempContent tee stdin = unlines (scannedLines MaxScanTokenSize stdin.data) := by
  unfold tempContent
  rw [writeTempLoop_eq, received_readIn]
  rfl

theorem linesOf_ne_nil {data : Str} (h : data ≠ []) : linesOf data ≠ [] := by
  cases data with
  | nil => exact absurd rfl h
  | cons b bs =>
    unfold linesOf
    split
    · simp
    · split <;> simp

theorem mem_linesOf {data : Str} {l : Str} (h : l ∈ linesOf data) :
    '\n' ∉ l ∧ ∀ c ∈ l, c ∈ data := by
  induction data generalizing l with
  | nil => simp [linesOf] at h
  | cons b bs ih =>
    unfold linesOf at h
    split at h
    · rcases List.mem_cons.mp h with h | h
      · subst h; simp
      · have := ih h
        exact ⟨this.1, fun c hc => List.mem_cons_of_mem _ (this.2 c hc)⟩
    · rename_i hb
      split at h
      · simp only [List.mem_singleton] at h
        subst h
        exact ⟨by simpa using fun e => hb e.symm, fun c hc => by simp at hc; simp [hc]⟩
      · rename_i l0 ls heq
        have h0 := ih (l := l0) (by rw [heq]; simp)
        rcases List.mem_cons.mp h with h | h
        · subst h
          refine ⟨?_, ?_⟩
          · simp only [List.mem_cons, not_or]
            exact ⟨fun e => hb e.symm, h0.1⟩
          · intro c hc
            rcases List.mem_cons.mp hc with hc | hc
            · simp [hc]
            · exact List.mem_cons_of_mem _ (h0.2 c hc)
        · have := ih (l := l) (by rw [heq]; exact List.mem_cons_of_mem _ h)
          exact ⟨this.1, fun c hc => List.mem_cons_of_mem _ (this.2 c hc)⟩

theorem linesOf_unlines {ls : List Str} (h : ∀ l ∈ ls, '\n' ∉ l) :
    linesOf (unlines ls) = ls := by
  induction ls with
  | nil => rfl
  | cons l ls ih =>
    rw [unlines_cons, linesOf_append_nl _ (h l (by simp)),
      ih (fun l' hl' => h l' (List.mem_cons_of_mem _ hl'))]

theorem unlines_linesOf {data : Str} (h : data = [] ∨ data.getLast? = some '\n') :
    unlines (linesOf data) = data := by
  induction data with
  | nil => rfl
  | cons b bs ih =>
    have hlast : bs = [] ∨ bs.getLast? = some '\n' := by
      rcases h with h | h
      · exact absurd h (by simp)
      · cases bs with
        | nil => exact Or.inl rfl
        | cons b' bs' => exact Or.inr (by simpa [List.getLast?_cons_cons] using h)
    by_cases hb : b = '\n'
    · subst hb
      simp only [linesOf, if_true]
      rw [unlines_cons, ih hlast]
      rfl
    · have hne : bs ≠ [] := by
        rintro rfl
        rcases h with h | h
        · exact absurd h (by simp)
        · simp at h
          exact hb h
      have hl := linesOf_ne_nil hne
      have ih' := ih hlast
      unfold linesOf
      rw [if_neg hb]
      cases hlo : linesOf bs with
      | nil => exact absurd hlo hl
      | cons l0 ls =>
        rw [hlo, unlines_cons] at ih'
        simp only []
        rw [unlines_cons, List.cons_append, ih']

theorem dropCR_no_nl {l : Str} (h : '\n' ∉ l) : '\n' ∉ dropCR l := by
  unfold dropCR
  split
  · exact fun hm => h (List.mem_of_mem_dropLast hm)
  · exact h

theorem dropCR_length_le (l : Str) : (dropCR l).length ≤ l.length := by
  unfold dropCR
  split
  · simp
  · exact le_refl _

theorem dropCR_dropCR {l : Str} (h : ¬ ['\r', '\r'] <:+ l) : dropCR (dropCR l) = dropCR l := by
  by_cases h1 : l.getLast? = some '\r'
  · have e1 : dropCR l = l.dropLast := by simp [dropCR, h1]
    rw [e1]
    by_cases h2 : l.dropLast.getLast? = some '\r'
    · exfalso
      apply h
      obtain ⟨l1, hl1⟩ : ∃ l1, l = l1 ++ ['\r'] := by
        rcases List.getLast?_eq_some_iff.mp h1 with ⟨l1, hl1⟩
        exact ⟨l1, hl1⟩
      subst hl1
      rw [List.dropLast_concat] at h2
      rcases List.getLast?_eq_some_iff.mp h2 with ⟨l2, hl2⟩
      subst hl2
      exact ⟨l2, by simp⟩
    · simp [dropCR, h2]
  · have e1 : dropCR l = l := by simp [dropCR, h1]
    rw [e1, e1]

theorem scannedLines_unlines {m : Nat} {data : Str}
    (h : ∀ l ∈ linesOf data, ¬ ['\r', '\r'] <:+ l) :
    scannedLines m (unlines (scannedLines m data)) = scannedLines m data := by
  have hmem : ∀ l ∈ scannedLines m data,
      ∃ l0 ∈ linesOf data, l0.length < m ∧ l = dropCR l0 := by
    intro l hl
    unfold scannedLines at hl
    rcases List.mem_map.mp hl with ⟨l0, hl0, rfl⟩
    have hp := List.mem_takeWhile_imp hl0
    exact ⟨l0, (List.takeWhile_sublist _).subset hl0, by simpa using hp, rfl⟩
  have hnl : ∀ l ∈ scannedLines m data, '\n' ∉ l := by
    intro l hl
    obtain ⟨l0, hl0, -, rfl⟩ := hmem l hl
    exact dropCR_no_nl (mem_linesOf hl0).1
  show List.map dropCR (List.takeWhile (fun l : Str => decide (l.length < m))
    (linesOf (unlines (scannedLines m data)))) = _
  rw [linesOf_unlines hnl]
  have htw : List.takeWhile (fun l : Str => decide (l.length < m)) (scannedLines m data) =
      scannedLines m data := by
    rw [List.takeWhile_eq_self_iff]
    intro l hl
    obtain ⟨l0, -, hlt, rfl⟩ := hmem l hl
    have := dropCR_length_le l0
    simp only [decide_eq_true_eq]
    omega
  rw [htw]
  have : ∀ l ∈ scannedLines m data, dropCR l = l := by
    intro l hl
    obtain ⟨l0, hl0, -, rfl⟩ := hmem l hl
    exact dropCR_dropCR (h l0 hl0)
  calc List.map dropCR (scannedLines m data)
      = List.map id (scannedLines m data) := List.map_congr_left this
    _ = scannedLines m data := List.map_id _

/-- The main goroutine in single-shot stdin mode. -/
theorem run_single_shot (c : Context) (env : Env) (tmp : Str)
    (h : resolves c env = true) (hargs : c.args = []) (hs : c.stream = false)
    (ht : env.tempFile = (tmp, none)) :
    run c env =
      ⟨[.readConfig env.getConfigPath.1, .setNoop c.noop,
          .newSlackCat (env.config.token (env.config.parseChannelOpt c.channel).1)
            (env.config.parseChannelOpt c.channel).2.1,
          .goReadIn c.tee, .tempFile tmp,
          .flush tmp (unlines (received (readIn c.tee env.stdin))),
          .postFile tmp c.filename c.filetype c.comment, .exit 0],
        some (readIn c.tee env.stdin)⟩ := by
  simp only [resolves, Bool.and_eq_true, Bool.not_eq_true', beq_eq_false_iff_ne, ne_eq,
    Option.isNone_iff_eq_none] at h
  obtain ⟨⟨⟨h1, h2⟩, h3⟩, h4⟩ := h
  rcases hp : env.getConfigPath with ⟨path, ex⟩
  rcases hq : env.config.parseChannelOpt c.channel with ⟨team, channel, err⟩
  rw [hp] at h2
  rw [hq] at h3 h4
  simp at h2 h3 h4
  subst h2 h3
  simp [run, action, h1, hp, hq, h4, hargs, hs, ht, bind, Proc.bind, pure, emit, osExit,
    failOnError, writeTemp, writeTempLoop_eq, readerTrace, hasReceiver]

theorem readerTrace_fail (data msg : Str) (m : List Effect) :
    readerTrace ⟨data, .fail msg⟩ m = readerTrace ⟨data, .eof⟩ m := by
  induction m with
  | nil => rfl
  | cons e m ih => cases e <;> simp [readerTrace, ih, readIn_fail]

theorem singleLine_outputText (p : Palette) (s : Str) :
    singleLine (outputText p s) = true ↔ '\n' ∉ tag p ∧ '\n' ∉ s := by
  have key : ∀ t : Str, singleLine (t ++ ['\n']) = true ↔ '\n' ∉ t := by
    intro t
    simp [singleLine, List.dropLast_concat]
  have h : outputText p s = (tag p ++ [' '] ++ s) ++ ['\n'] := rfl
  rw [h, key]
  simp

/-- The run on a configuration error: a diagnostic and exit code 1, after at
most the reading of the config file and the assignment of `noop`. -/
theorem run_config_error (c : Context) (env : Env) (hc : c.configure = false)
    (herr : env.getConfigPath.2 = false ∨
      (env.config.parseChannelOpt c.channel).2.2 ≠ none ∨
      env.config.token (env.config.parseChannelOpt c.channel).1 = []) :
    ∃ pre d, run c env = ⟨pre ++ [.print d, .exit 1], none⟩ ∧
      (pre = [] ∨ pre = [.readConfig env.getConfigPath.1] ∨
        pre = [.readConfig env.getConfigPath.1, .setNoop c.noop]) := by
  rcases hp : env.getConfigPath with ⟨path, ex⟩
  rcases hq : env.config.parseChannelOpt c.channel with ⟨team, channel, err⟩
  rw [hp, hq] at herr
  simp only at herr
  cases ex with
  | false =>
    refine ⟨[], outputText env.palette (env.palette.red ("missing config file at ".toList ++
      path ++ "\nuse --configure to create".toList)), ?_, Or.inl rfl⟩
    simp [run, action, hc, hp, bind, Proc.bind, pure, emit, osExit, output, exitErr,
      readerTrace]
  | true =>
    cases err with
    | some e =>
      refine ⟨[.readConfig path],
        outputText env.palette (env.palette.red ([] ++ ": ".toList ++ e)), ?_,
        Or.inr (Or.inl rfl)⟩
      simp [run, action, hc, hp, hq, bind, Proc.bind, pure, emit, osExit, output, exitErr,
        failOnError, readerTrace]
    | none =>
      have ht : env.config.token team = [] := by simpa using herr
      refine ⟨[.readConfig path, .setNoop c.noop],
        outputText env.palette (env.palette.red ("no such team: ".toList ++ team)), ?_,
        Or.inr (Or.inr rfl)⟩
      simp [run, action, hc, hp, hq, ht, bind, Proc.bind, pure, emit, osExit, output, exitErr,
        failOnError, readerTrace]

/-- The terminal `\r` of a line counts towards the scanner's limit: after
65535 bytes and `\r\n` nothing is sent. -/
theorem readIn_cr_counts (tee : Bool) (ending : ReadEnd) :
    sentLines (readIn tee
      ⟨(List.replicate (MaxScanTokenSize - 1) 'a' ++ ['\r']) ++ '\n' :: ['b', '\n'],
        ending⟩) = [] := by
  have hn : '\n' ∉ List.replicate (MaxScanTokenSize - 1) 'a' ++ ['\r'] := by
    intro h
    rcases List.mem_append.mp h with h | h
    · exact absurd (List.eq_of_mem_replicate h) (by decide)
    · exact absurd (List.mem_singleton.mp h) (by decide)
  have hlen : ¬ (List.replicate (MaxScanTokenSize - 1) 'a' ++ ['\r']).length <
      MaxScanTokenSize := by
    rw [List.length_append, List.length_replicate]
    decide
  rw [readIn_eq, sentLines_lineEffects]
  show scannedLines MaxScanTokenSize
    ((List.replicate (MaxScanTokenSize - 1) 'a' ++ ['\r']) ++ '\n' :: ['b', '\n'])
      ++ sentLines [Effect.close] = []
  rw [scannedLines_append_nl _ hn, if_neg hlen]
  rfl

/-! ## The claims -/

/-- C1 (counterexample). On an input whose first line has 65536 bytes, `readIn`
sends nothing, although the input splits into two lines. -/
theorem C1_counterexample :
    MaxScanTokenSize = 65536 ∧
    sentLines (readIn false ⟨overlongInput, .eof⟩) = [] ∧
    specLines overlongInput = [List.replicate MaxScanTokenSize 'a', ['b']] ∧
    sentLines (readIn false ⟨overlongInput, .eof⟩) ≠ specLines overlongInput := by
  have hn : '\n' ∉ List.replicate MaxScanTokenSize 'a' := by
    intro h; exact absurd (List.eq_of_mem_replicate h) (by decide)
  have hr : '\r' ∉ List.replicate MaxScanTokenSize 'a' := by
    intro h; exact absurd (List.eq_of_mem_replicate h) (by decide)
  have h1 : sentLines (readIn false ⟨overlongInput, .eof⟩) = [] := by
    rw [readIn_eq, sentLines_lineEffects]
    show scannedLines MaxScanTokenSize (List.replicate MaxScanTokenSize 'a' ++ '\n' :: ['b', '\n'])
      ++ sentLines [Effect.close] = []
    rw [scannedLines_append_nl _ hn]
    simp [sentLines]
  have h2 : specLines overlongInput = [List.replicate MaxScanTokenSize 'a', ['b']] := by
    show List.map dropCR (linesOf (List.replicate MaxScanTokenSize 'a' ++ '\n' :: ['b', '\n'])) = _
    rw [linesOf_append_nl _ hn]
    have : linesOf ['b', '\n'] = [['b']] := by decide
    rw [this]
    simp only [List.map_cons, List.map_nil, dropCR_of_not_mem hr]
    congr 1
  exact ⟨rfl, h1, h2, by rw [h1, h2]; simp⟩

/-- C1 (amended). The length of a line is the number of its bytes before its
`\n`, a terminal `\r` included. For every finite input, `readIn` sends the
lines that come before the first line of length 65536 or more, each once, in
order and with one terminal `\r` removed; when no line is that long these are
exactly the lines of the input; then it closes the channel exactly once, as
the last thing it does. -/
theorem C1_readIn_sends_lines (tee : Bool) (stdin : Stdin) :
    sentLines (readIn tee stdin) = scannedLines MaxScanTokenSize stdin.data ∧
    ((∀ l ∈ linesOf stdin.data, l.length < MaxScanTokenSize) →
      sentLines (readIn tee stdin) = specLines stdin.data) ∧
    (readIn tee stdin).count Effect.close = 1 ∧
    (readIn tee stdin).getLast? = some Effect.close := by
  have h : sentLines (readIn tee stdin) = scannedLines MaxScanTokenSize stdin.data := by
    rw [readIn_eq, sentLines_lineEffects]
    simp [sentLines]
  refine ⟨h, ?_, ?_, ?_⟩
  · intro hl
    rw [h, scannedLines_eq_specLines hl]
  · rw [readIn_eq, List.count_append, count_close_lineEffects]
    simp
  · rw [readIn_eq]
    simp

/-- C1 (witness). The input `a\nb` has short lines, and both are sent. -/
theorem C1_witness :
    (∀ l ∈ linesOf "a\nb".toList, l.length < MaxScanTokenSize) ∧
    sentLines (readIn true ⟨"a\nb".toList, .eof⟩) = specLines "a\nb".toList :=
  ⟨by decide, (C1_readIn_sends_lines true ⟨"a\nb".toList, .eof⟩).2.1 (by decide)⟩

/-- C2. In single-shot stdin mode, when the temp file can be created, the
content `writeTemp` flushes to the temp file, whose name is then passed to
`postFile`, is each line received from the channel followed by one `\n`, in
order; the lines a, b, c give `a\nb\nc\n` and no line gives an empty file. -/
theorem C2_writeTemp_content (c : Context) (env : Env) (tmp : Str)
    (h : resolves c env = true) (hargs : c.args = []) (hs : c.stream = false)
    (ht : env.tempFile = (tmp, none)) :
    (∀ lines : List Str,
      writeTemp env.palette env.tempFile lines =
        ⟨[.tempFile tmp, .flush tmp (unlines lines)], some tmp⟩) ∧
    (run c env).main =
      [.readConfig env.getConfigPath.1, .setNoop c.noop,
       .newSlackCat (env.config.token (env.config.parseChannelOpt c.channel).1)
         (env.config.parseChannelOpt c.channel).2.1,
       .goReadIn c.tee, .tempFile tmp,
       .flush tmp (unlines (received (readIn c.tee env.stdin))),
       .postFile tmp c.filename c.filetype c.comment, .exit 0] ∧
    writeTempLoop [] ["a".toList, "b".toList, "c".toList] = "a\nb\nc\n".toList ∧
    writeTempLoop [] [] = [] := by
  refine ⟨?_, ?_, by decide, rfl⟩
  · intro lines
    simp [writeTemp, ht, failOnError, bind, Proc.bind, pure, emit, writeTempLoop_eq]
  · rw [run_single_shot c env tmp h hargs hs ht]

/-- C2 (witness). The command line `slackcat -c general` with input
`a\nb\nc`. -/
theorem C2_witness :
    resolves demoCtx (demoEnv ⟨"a\nb\nc".toList, .eof⟩) = true ∧
    (run demoCtx (demoEnv ⟨"a\nb\nc".toList, .eof⟩)).main =
      [.readConfig "/home/u/.slackcat".toList, .setNoop false,
       .newSlackCat "xoxp".toList "general".toList, .goReadIn false,
       .tempFile "/tmp/slackcat-1".toList,
       .flush "/tmp/slackcat-1".toList (unlines (received (readIn false
          ⟨"a\nb\nc".toList, .eof⟩))),
       .postFile "/tmp/slackcat-1".toList [] [] [], .exit 0] ∧
    unlines (received (readIn false ⟨"a\nb\nc".toList, .eof⟩)) = "a\nb\nc\n".toList :=
  ⟨by decide,
    (C2_writeTemp_content demoCtx (demoEnv ⟨"a\nb\nc".toList, .eof⟩) "/tmp/slackcat-1".toList
      (by decide) rfl rfl rfl).2.1,
    by decide⟩

/-- C3 (counterexample). With tee set and input `a\n`, `readIn` sends the line
and then prints it: the print does not precede the send. -/
theorem C3_counterexample :
    readIn true ⟨"a\n".toList, .eof⟩ =
      [.send ['a'], .print ['a', '\n'], .close] ∧
    printsFirst 0 0 (readIn true ⟨"a\n".toList, .eof⟩) = false := by
  decide

/-- C3 (amended). With tee set, `readIn` puts each line on the channel and
then prints it, followed by a newline, to standard output: the send of line i
comes directly before the print of line i, and every print comes before the
close of the channel. -/
theorem C3_readIn_send_then_print (stdin : Stdin) :
    readIn true stdin =
      (scannedLines MaxScanTokenSize stdin.data).flatMap
        (fun l => [Effect.send l, Effect.print (l ++ ['\n'])]) ++ [Effect.close] ∧
    sendsFirst 0 0 (readIn true stdin) = true ∧
    printed (readIn true stdin) =
      (sentLines (readIn true stdin)).map (fun l => l ++ ['\n']) := by
  refine ⟨?_, ?_, ?_⟩
  · rw [readIn_eq]
    rfl
  · rw [readIn_eq]
    exact sendsFirst_lineEffects _ 0
  · rw [readIn_eq, printed_lineEffects, sentLines_lineEffects]
    simp [printed, sentLines]

/-- C4 (counterexample). Standard input delivers `a\n` and then fails: the run
posts the file and exits with code 0, with no diagnostic. -/
theorem C4_counterexample :
    run demoCtx (demoEnv ⟨"a\n".toList, .fail "input/output error".toList⟩) =
      ⟨[.readConfig "/home/u/.slackcat".toList, .setNoop false,
        .newSlackCat "xoxp".toList "general".toList, .goReadIn false,
        .tempFile "/tmp/slackcat-1".toList,
        .flush "/tmp/slackcat-1".toList "a\n".toList,
        .postFile "/tmp/slackcat-1".toList [] [] [], .exit 0],
       some [.send ['a'], .close]⟩ ∧
    Effect.exit 1 ∉ (run demoCtx
      (demoEnv ⟨"a\n".toList, .fail "input/output error".toList⟩)).main := by
  decide

/-- C4 (amended). When reading standard input fails with an error other than
the end of input, `readIn` sends the lines read so far and closes the channel,
and the error is not surfaced: the whole run is the run on the same bytes
ending normally. -/
theorem C4_read_error_not_surfaced (c : Context) (env : Env) (data msg : Str) (tee : Bool) :
    readIn tee ⟨data, .fail msg⟩ = readIn tee ⟨data, .eof⟩ ∧
    (readIn tee ⟨data, .fail msg⟩).getLast? = some Effect.close ∧
    run c { env with stdin := ⟨data, .fail msg⟩ } =
      run c { env with stdin := ⟨data, .eof⟩ } := by
  refine ⟨readIn_fail tee data msg, ?_, ?_⟩
  · rw [readIn_eq]; simp
  · have ha : action c { env with stdin := ⟨data, .fail msg⟩ } =
        action c { env with stdin := ⟨data, .eof⟩ } := by
      simp only [action, readIn_fail]
    simp only [run, ha, readerTrace_fail]

/-- C5 (counterexample). Without a config file the diagnostic (colours off) is
`slackcat missing config file at /home/u/.slackcat`, a line break, and
`use --configure to create`: two lines. -/
theorem C5_counterexample :
    (run demoCtx (missingConfigEnv ⟨[], .eof⟩)).main =
      [.print "slackcat missing config file at /home/u/.slackcat\nuse --configure to create\n".toList,
       .exit 1] ∧
    singleLine
      "slackcat missing config file at /home/u/.slackcat\nuse --configure to create\n".toList
        = false := by
  decide

/-- C5 (amended). Every fatal error raised through `exitErr`, directly or via
`failOnError` with a non-nil error, prints exactly one diagnostic, made of the
program tag `bold(cyan("slackcat"))`, a space, the error text as `red` renders
it and a newline, and then exits with code 1. The diagnostic is a single line
exactly when the tag and the rendered text hold no newline; with colours off
the tag is `slackcat`, and the missing-config-file text holds a newline. -/
theorem C5_fatal_diagnostic (p : Palette) (err msg e path : Str) (appendErr : Bool) :
    (exitErr p err : Proc Unit) =
      ⟨[.print (tag p ++ [' '] ++ p.red err ++ ['\n']), .exit 1], none⟩ ∧
    failOnError p (some e) msg appendErr =
      exitErr p (if appendErr then msg ++ ": ".toList ++ e else msg) ∧
    (singleLine (tag p ++ [' '] ++ p.red err ++ ['\n']) = true ↔
      '\n' ∉ tag p ∧ '\n' ∉ p.red err) ∧
    tag Palette.plain = "slackcat".toList ∧
    '\n' ∈ Palette.plain.red ("missing config file at ".toList ++ path ++
      "\nuse --configure to create".toList) := by
  refine ⟨?_, ?_, ?_, rfl, ?_⟩
  · simp [exitErr, output, outputText, bind, Proc.bind, emit, osExit]
  · cases appendErr <;> simp [failOnError]
  · exact singleLine_outputText p (p.red err)
  · simp [Palette.plain]

/-- C6 (counterexample). In single-shot stdin mode with no filename option,
`postFile` is handed the empty string as filename. -/
theorem C6_counterexample :
    postFileNames (run demoCtx (demoEnv ⟨"a\nb\nc\n".toList, .eof⟩)).main = [[]] := by
  decide

/-- C6 (amended). In single-shot stdin mode the filename handed to `postFile`
is the filename option as given; with the option unset it is the empty string:
`main.go` applies no default on this path. -/
theorem C6_filename_passed_as_given (c : Context) (env : Env) (tmp : Str)
    (h : resolves c env = true) (hargs : c.args = []) (hs : c.stream = false)
    (ht : env.tempFile = (tmp, none)) :
    postFileNames (run c env).main = [c.filename] ∧
    (c.filename = [] → postFileNames (run c env).main = [[]]) := by
  have h1 : postFileNames (run c env).main = [c.filename] := by
    rw [run_single_shot c env tmp h hargs hs ht]
    rfl
  exact ⟨h1, fun hf => by rw [h1, hf]⟩

/-- C6 (witness). The command line `slackcat -c general`. -/
theorem C6_witness :
    resolves demoCtx (demoEnv ⟨"a\n".toList, .eof⟩) = true ∧
    postFileNames (run demoCtx (demoEnv ⟨"a\n".toList, .eof⟩)).main = [demoCtx.filename] :=
  ⟨by decide, (C6_filename_passed_as_given demoCtx (demoEnv ⟨"a\n".toList, .eof⟩)
    "/tmp/slackcat-1".toList (by decide) rfl rfl rfl).1⟩

/-- C7 (counterexample). With `--configure` and no config file the action
runs the OAuth configuration and exits with code 0. -/
theorem C7_counterexample :
    (missingConfigEnv ⟨[], .eof⟩).getConfigPath.2 = false ∧
    run configureCtx (missingConfigEnv ⟨[], .eof⟩) = ⟨[.configureOA, .exit 0], none⟩ := by
  decide

/-- C7 (amended). When `--configure` is not set, a configuration error is
fatal before the pipeline starts: if the config file is missing, the channel
option fails to parse, or the team has no token or an empty one, the action
prints one diagnostic and exits with code 1, and no sender is constructed,
`readIn` is not started, no temp file is written and `postFile` is not called.
With `--configure` set the action runs `configureOA` and exits with code 0. -/
theorem C7_config_error_fatal (c : Context) (env : Env) :
    (c.configure = false →
      (env.getConfigPath.2 = false ∨
        (env.config.parseChannelOpt c.channel).2.2 ≠ none ∨
        env.config.token (env.config.parseChannelOpt c.channel).1 = []) →
      (run c env).main.getLast? = some (.exit 1) ∧
      (printed (run c env).main).length = 1 ∧
      (∀ token channel, Effect.newSlackCat token channel ∉ (run c env).main) ∧
      (∀ tee, Effect.goReadIn tee ∉ (run c env).main) ∧
      (run c env).reader = none ∧
      (∀ name, Effect.tempFile name ∉ (run c env).main) ∧
      (∀ name content, Effect.flush name content ∉ (run c env).main) ∧
      (∀ filePath fileName fileType fileComment,
        Effect.postFile filePath fileName fileType fileComment ∉ (run c env).main)) ∧
    (c.configure = true → run c env = ⟨[.configureOA, .exit 0], none⟩) := by
  constructor
  · intro hc herr
    obtain ⟨pre, d, hrun, hpre⟩ := run_config_error c env hc herr
    rw [hrun]
    rcases hpre with h | h | h <;> subst h <;> simp [printed]
  · intro hc
    simp [run, action, hc, bind, Proc.bind, emit, osExit, readerTrace]

/-- C7 (witness). The command line `slackcat -c general` without a config
file. -/
theorem C7_witness :
    demoCtx.configure = false ∧
    (missingConfigEnv ⟨"a\n".toList, .eof⟩).getConfigPath.2 = false ∧
    (run demoCtx (missingConfigEnv ⟨"a\n".toList, .eof⟩)).main.getLast? = some (.exit 1) ∧
    (run demoCtx (missingConfigEnv ⟨"a\n".toList, .eof⟩)).reader = none :=
  have h := (C7_config_error_fatal demoCtx (missingConfigEnv ⟨"a\n".toList, .eof⟩)).1
    rfl (Or.inl rfl)
  ⟨rfl, rfl, h.1, h.2.2.2.2.1⟩

/-- C8. Two runs that differ only in the noop flag have the same effects but
for the assignment to the global `noop`: the `readIn` goroutine sends and
echoes the same lines, and the main goroutine writes the same temp file and
calls `postFile` with the same arguments. -/
theorem C8_noop_invariance (c : Context) (env : Env) (b : Bool) :
    (run { c with noop := b } env).reader = (run c env).reader ∧
    eraseNoop (run { c with noop := b } env).main = eraseNoop (run c env).main ∧
    (run { c with noop := b } env).main.length = (run c env).main.length := by
  rcases c with ⟨channel, comment, configure, filename, filetype, noop, stream, tee, args⟩
  rcases hp : env.getConfigPath with ⟨path, ex⟩
  rcases hq : env.config.parseChannelOpt channel with ⟨team, ch, err⟩
  rcases ht : env.tempFile with ⟨tmp, terr⟩
  by_cases htok : env.config.token team = []
  all_goals
    cases configure <;> cases ex <;> cases err <;> cases args <;> cases stream <;>
      cases terr <;>
      simp [run, action, hp, hq, ht, htok, bind, Proc.bind, pure, emit, osExit, output, exitErr,
        failOnError, writeTemp, selectForever, readerTrace, hasReceiver, eraseNoop]

/-- C9. With at least one positional argument, when configuration resolves,
the action makes exactly one `postFile` call, with the first argument as path
and as filename the filename option if it is not empty and else the base name
of the path, and then exits with code 0, with the stream flag set or not;
`readIn` is not started, and neither are the streaming goroutines. -/
theorem C9_file_argument (c : Context) (env : Env) (a : Str) (rest : List Str)
    (h : resolves c env = true) (hargs : c.args = a :: rest) :
    run c env =
      ⟨[.readConfig env.getConfigPath.1, .setNoop c.noop,
          .newSlackCat (env.config.token (env.config.parseChannelOpt c.channel).1)
            (env.config.parseChannelOpt c.channel).2.1] ++
        (if c.stream then
          [Effect.print (outputText env.palette
            "filepath provided, ignoring stream option".toList)] else []) ++
        [.postFile a (if c.filename = [] then env.Base a else c.filename)
            c.filetype c.comment, .exit 0], none⟩ := by
  simp only [resolves, Bool.and_eq_true, Bool.not_eq_true', beq_eq_false_iff_ne, ne_eq,
    Option.isNone_iff_eq_none] at h
  obtain ⟨⟨⟨h1, h2⟩, h3⟩, h4⟩ := h
  rcases hp : env.getConfigPath with ⟨path, ex⟩
  rcases hq : env.config.parseChannelOpt c.channel with ⟨team, channel, err⟩
  rw [hp] at h2
  rw [hq] at h3 h4
  simp at h2 h3 h4
  subst h2 h3
  cases hs : c.stream <;>
  simp [run, action, h1, hp, hq, h4, hargs, hs, bind, Proc.bind, pure, emit, osExit, output,
    failOnError, readerTrace]

/-- C9 (witness). The command line `slackcat -c general -s notes.txt`. -/
theorem C9_witness :
    resolves fileCtx (demoEnv ⟨"ignored\n".toList, .eof⟩) = true ∧
    run fileCtx (demoEnv ⟨"ignored\n".toList, .eof⟩) =
      ⟨[.readConfig "/home/u/.slackcat".toList, .setNoop false,
        .newSlackCat "xoxp".toList "general".toList,
        .print "slackcat filepath provided, ignoring stream option\n".toList,
        .postFile "notes.txt".toList "notes.txt".toList [] [], .exit 0], none⟩ :=
  ⟨by decide, C9_file_argument fileCtx (demoEnv ⟨"ignored\n".toList, .eof⟩)
    "notes.txt".toList [] (by decide) rfl⟩

/-- C10 (counterexample). The input `a\r\r\n` gives the file `a\r\n`, and
that file as input gives `a\n`: a second pass changes the file. -/
theorem C10_counterexample :
    tempContent false ⟨"a\r\r\n".toList, .eof⟩ = "a\r\n".toList ∧
    tempContent false ⟨tempContent false ⟨"a\r\r\n".toList, .eof⟩, .eof⟩ = "a\n".toList ∧
    tempContent false ⟨tempContent false ⟨"a\r\r\n".toList, .eof⟩, .eof⟩ ≠
      tempContent false ⟨"a\r\r\n".toList, .eof⟩ := by
  decide

/-- C10 (amended). If every line of the input ends in `\n`, holds no `\r` and
is shorter than 65536 bytes, the temp file is the input byte for byte. For any
input no line of which ends in two `\r`, feeding the temp file back through
the same path gives the same file again. -/
theorem C10_round_trip (tee : Bool) (stdin : Stdin) (ending : ReadEnd) :
    ((stdin.data = [] ∨ stdin.data.getLast? = some '\n') → '\r' ∉ stdin.data →
      (∀ l ∈ linesOf stdin.data, l.length < MaxScanTokenSize) →
      tempContent tee stdin = stdin.data) ∧
    ((∀ l ∈ linesOf stdin.data, ¬ ['\r', '\r'] <:+ l) →
      tempContent tee ⟨tempContent tee stdin, ending⟩ = tempContent tee stdin) := by
  constructor
  · intro hterm hcr hlen
    rw [tempContent_eq, scannedLines_eq_specLines hlen]
    have hmap : specLines stdin.data = linesOf stdin.data := by
      unfold specLines
      calc List.map dropCR (linesOf stdin.data)
          = List.map id (linesOf stdin.data) :=
            List.map_congr_left fun l hl =>
              dropCR_of_not_mem fun hm => hcr ((mem_linesOf hl).2 _ hm)
        _ = linesOf stdin.data := List.map_id _
    rw [hmap, unlines_linesOf hterm]
  · intro h
    rw [tempContent_eq, tempContent_eq]
    show unlines (scannedLines MaxScanTokenSize
      (unlines (scannedLines MaxScanTokenSize stdin.data))) = _
    rw [scannedLines_unlines h]

/-- C10 (witness). The input `a\nb\n` comes back unchanged, and a line ending
in one `\r` is stable after the first pass. -/
theorem C10_witness :
    (∀ l ∈ linesOf "a\nb\n".toList, l.length < MaxScanTokenSize) ∧
    (∀ l ∈ linesOf "a\r\nb".toList, ¬ ['\r', '\r'] <:+ l) ∧
    tempContent true ⟨"a\nb\n".toList, .eof⟩ = "a\nb\n".toList ∧
    tempContent true ⟨tempContent true ⟨"a\r\nb".toList, .eof⟩, .eof⟩ =
      tempContent true ⟨"a\r\nb".toList, .eof⟩ :=
  ⟨by decide, by decide,
   (C10_round_trip true ⟨"a\nb\n".toList, .eof⟩ .eof).1 (by decide) (by decide) (by decide),
   (C10_round_trip true ⟨"a\r\nb".toList, .eof⟩ .eof).2 (by decide)⟩

end Slackcat
